import Mathlib

/-!
Shallow embedding of `src/main.py`, the incident-report pipeline that decodes
legacy-encoded XML files, extracts per-message records, drops records with
unparsable dates, groups the survivors by incident identifier, and renders one
deduplicated narrative timeline plus a summary row per incident.  Pure string
and list manipulation is translated directly; the external collaborators
(Python codecs, `pandas.to_datetime`) enter as explicit function parameters.
Theorems at the end check the specification's claims against the embedding.
-/

namespace IncidentPipeline

/-! ## Character classes and text cleaning (`clean_text`, main.py lines 6-16) -/

/-- Whitespace in the sense of Python's `str.strip()` and the regex `\s`,
exact on the Latin-1 range (the stdlib predicates also accept a few higher
Unicode separator code points, which no modelled input contains). -/
def pyIsSpace (c : Char) : Bool :=
  c = ' ' || c = '\t' || c = '\n' || c = '\r' || c = Char.ofNat 0x0b ||
  c = Char.ofNat 0x0c || c = Char.ofNat 0x1c || c = Char.ofNat 0x1d ||
  c = Char.ofNat 0x1e || c = Char.ofNat 0x1f || c = Char.ofNat 0x85 ||
  c = Char.ofNat 0xa0

/-- Python's `str.isprintable` on one character, exact on the Latin-1 range:
C0 controls, DEL, C1 controls, no-break space and soft hyphen are not
printable.  Higher code points are treated as printable (the stdlib also
excludes other separator and format characters; none occur in the claims). -/
def pyIsPrintable (c : Char) : Bool :=
  !(c.toNat < 0x20 || (0x7f ≤ c.toNat && c.toNat ≤ 0xa0) || c.toNat = 0xad)

/-- Line 11 of main.py chains `.replace('�', '?')` with two further
replaces whose source literals are again U+FFFD, so after the first
replacement the later two find nothing: the net effect is that every
replacement character U+FFFD becomes `'?'`. -/
def fixChars (l : List Char) : List Char :=
  l.map fun c => if c = Char.ofNat 0xfffd then '?' else c

/-- The printability filter of line 13: keep a character when it is printable
or is one of the explicitly allowed `'\n'`, `'\t'`. -/
def keepPrintable (l : List Char) : List Char :=
  l.filter fun c => pyIsPrintable c || c = '\n' || c = '\t'

/-- Python's `str.strip()` on a character list: remove leading and trailing
whitespace. -/
def pyStrip (l : List Char) : List Char :=
  ((l.dropWhile pyIsSpace).reverse.dropWhile pyIsSpace).reverse

/-- Worker for `collapseWs`: the flag records whether the previous character
belonged to a whitespace run that has already emitted its single space. -/
def collapseWsGo : Bool → List Char → List Char
  | _, [] => []
  | inRun, c :: cs =>
    if pyIsSpace c then
      if inRun then collapseWsGo true cs else ' ' :: collapseWsGo true cs
    else c :: collapseWsGo false cs

/-- The regex substitution `re.sub(r'\s+', ' ', ·)` of line 15: every maximal
run of whitespace characters becomes one space. -/
def collapseWs (l : List Char) : List Char := collapseWsGo false l

/-- `clean_text` (main.py lines 6-16): empty text is returned unchanged;
otherwise replace U+FFFD by `'?'`, drop non-printable characters other than
newline and tab, then strip and collapse whitespace runs to single spaces. -/
def clean_text (s : String) : String :=
  if s = "" then ""
  else String.mk (collapseWs (pyStrip (keepPrintable (fixChars s.data))))

/-- Python's `a or b` idiom on strings: the empty string is falsy. -/
def pyOr (a b : String) : String := if a = "" then b else a

/-! ## Record extraction (`process_xml`, main.py lines 19-68)

The XML tree produced by lxml's recovering parser is external; a parsed
`<message>` element is modelled by its list of child elements as
(tag, text) pairs, where an element whose text is `None` carries `""`
(exactly what `findtext` with default `""` observes). -/

/-- One `<message>` element of the recovered XML tree: its child elements in
document order, each reduced to (tag name, text content). -/
structure Message where
  fields : List (String × String)
deriving DecidableEq, Repr

/-- `message.findtext(tag, dflt)`: text of the first child with the given
tag, or the default when no such child exists. -/
def findtext (m : Message) (tag dflt : String) : String :=
  match m.fields.find? (fun f => f.1 = tag) with
  | some f => f.2
  | none => dflt

/-- `safe_findtext` (main.py lines 46-48): look the tag up with default `""`
and clean the result; the guard `if t` maps falsy (empty) text to `""`. -/
def safe_findtext (m : Message) (tag : String) : String :=
  let t := findtext m tag ""
  if t = "" then "" else clean_text t

/-- One extracted record: the dict built in main.py lines 50-61. -/
structure RawRecord where
  file : String
  incident_number : String
  heading_en : String
  detail_en : String
  location_en : String
  direction_en : String
  announcement_date : String
  status_en : String
  near_landmark_en : String
  content_en : String
deriving DecidableEq, Repr

/-- `.replace("\n", " ")` applied to the content field (line 60); the pattern
is a single character, so the replacement is a character map. -/
def newlineToSpace (s : String) : String :=
  String.mk (s.data.map fun c => if c = '\n' then ' ' else c)

/-- The record built for one `<message>` element (main.py lines 50-61),
`file` being `os.path.basename(file_path)`. -/
def extractRecord (file : String) (m : Message) : RawRecord :=
  { file := file
    incident_number := safe_findtext m "INCIDENT_NUMBER"
    heading_en := safe_findtext m "INCIDENT_HEADING_EN"
    detail_en := safe_findtext m "INCIDENT_DETAIL_EN"
    location_en := safe_findtext m "LOCATION_EN"
    direction_en := safe_findtext m "DIRECTION_EN"
    announcement_date := safe_findtext m "ANNOUNCEMENT_DATE"
    status_en := safe_findtext m "INCIDENT_STATUS_EN"
    near_landmark_en := safe_findtext m "NEAR_LANDMARK_EN"
    content_en := newlineToSpace (safe_findtext m "CONTENT_EN") }

/-- `process_xml`'s extraction loop (main.py lines 45-62): one record per
`<message>` element found under the root, in document order. -/
def process_xml (file : String) (msgs : List Message) : List RawRecord :=
  msgs.map (extractRecord file)

/-! ## Decoder (main.py lines 22-40)

The byte-to-text codecs are the Python standard library's; they enter as
parameters: `dec e b` is the strict `b.decode(e)` (`none` on
`UnicodeDecodeError`) and `decRep b` is the lossy
`b.decode('big5', errors='replace')`. -/

/-- The candidate encodings of main.py line 23, in source order. -/
inductive Enc
  | big5
  | big5hkscs
  | gb18030
  | gbk
  | utf8
  | utf8sig
deriving DecidableEq, Repr

/-- `encodings = ['big5', 'big5hkscs', 'gb18030', 'gbk', 'utf-8', 'utf-8-sig']`. -/
def encodings : List Enc :=
  [.big5, .big5hkscs, .gb18030, .gbk, .utf8, .utf8sig]

/-- The `for enc in encodings: try ... break except ... continue` loop of
lines 29-35: the first candidate that decodes strictly wins, together with
which candidate it was (the loop prints the winner). -/
def decodeLoop (dec : Enc → List Nat → Option String) (b : List Nat) :
    List Enc → Option (String × Enc)
  | [] => none
  | e :: es =>
    match dec e b with
    | some t => some (t, e)
    | none => decodeLoop dec b es

/-- Lines 29-40 of main.py: run the candidate loop; when every candidate
fails (`xml_text is None`) fall back to the lossy big5 decode.  The second
component reports the chosen encoding, `none` meaning the fallback path
(which the source logs as "Fallback replace decoding used"). -/
def decodeFile (dec : Enc → List Nat → Option String)
    (decRep : List Nat → String) (b : List Nat) : String × Option Enc :=
  match decodeLoop dec b encodings with
  | some (t, e) => (t, some e)
  | none => (decRep b, none)

/-! ## Timestamps

`pandas.to_datetime` yields instants with calendar fields; a parsed
timestamp is modelled by its fields down to microseconds.  Comparison and
exact-duplicate detection on pandas timestamps compare the underlying
instant, modelled by `DT.toMicro`, microseconds since the epoch (computed
with the standard civil-from-days calendar arithmetic). -/

/-- A parsed announcement date. -/
structure DT where
  year : Nat
  month : Nat
  day : Nat
  hour : Nat
  minute : Nat
  second : Nat
  microsecond : Nat
deriving DecidableEq, Repr

/-- Days from 1970-01-01 of a civil date (Hinnant's `days_from_civil`). -/
def daysFromCivil (y m d : Int) : Int :=
  let yy : Int := if m ≤ 2 then y - 1 else y
  let era : Int := (if yy ≥ 0 then yy else yy - 399) / 400
  let yoe : Int := yy - era * 400
  let mp : Int := (m + 9) % 12
  let doy : Int := (153 * mp + 2) / 5 + d - 1
  let doe : Int := yoe * 365 + yoe / 4 - yoe / 100 + doy
  era * 146097 + doe - 719468

/-- The instant of a timestamp, in microseconds since the epoch: the value a
pandas timestamp compares and deduplicates by. -/
def DT.toMicro (t : DT) : Int :=
  ((daysFromCivil t.year t.month t.day * 86400
      + t.hour * 3600 + t.minute * 60 + t.second) * 1000000) + t.microsecond

/-- Zero-pad a number to two digits. -/
def pad2 (n : Nat) : String := if n < 10 then "0" ++ Nat.repr n else Nat.repr n

/-- Zero-pad a number to four digits. -/
def pad4 (n : Nat) : String :=
  if n < 10 then "000" ++ Nat.repr n
  else if n < 100 then "00" ++ Nat.repr n
  else if n < 1000 then "0" ++ Nat.repr n
  else Nat.repr n

/-- `row['announcement_date'].strftime('%Y-%m-%d %H:%M:%S')` (main.py line
114): the sub-second part of the instant is not rendered. -/
def fmtTs (t : DT) : String :=
  pad4 t.year ++ "-" ++ pad2 t.month ++ "-" ++ pad2 t.day ++ " " ++
  pad2 t.hour ++ ":" ++ pad2 t.minute ++ ":" ++ pad2 t.second

/-! ## Date parsing, sorting and grouping (main.py lines 86-102, 170-174)

`pd.to_datetime(..., format='mixed', errors='coerce', dayfirst=False)` is the
external tolerant month-first parser; it enters as a parameter
`pd : String → Option DT`, `none` modelling `NaT`. -/

/-- A surviving row: the extracted record together with its parsed date
(the overwritten `announcement_date` column). -/
structure Row where
  raw : RawRecord
  ts : DT
deriving DecidableEq, Repr

/-- Lines 89-100: parse every date, count the failures away and keep the
survivors (`dropna`) in their pooled order. -/
def parseRows (pd : String → Option DT) (pool : List RawRecord) : List Row :=
  pool.filterMap fun r => (pd r.announcement_date).map fun t => ⟨r, t⟩

/-- Line 96, `df['announcement_date'].isna().sum()`: how many pooled records
have an unparsable date. -/
def invalidCount (pd : String → Option DT) (pool : List RawRecord) : Nat :=
  (pool.map fun r => pd r.announcement_date).countP Option.isNone

/-- Python's string order (code-point lexicographic) on character lists. -/
def charListLt : List Char → List Char → Bool
  | [], [] => false
  | [], _ :: _ => true
  | _ :: _, [] => false
  | a :: as, b :: bs => if a = b then charListLt as bs else decide (a < b)

/-- The sort key order of line 102, `df.sort_values(['incident_number',
'announcement_date'])`: by identifier, ties by parsed instant. -/
def rowLe (a b : Row) : Bool :=
  if a.raw.incident_number = b.raw.incident_number then
    decide (a.ts.toMicro ≤ b.ts.toMicro)
  else charListLt a.raw.incident_number.data b.raw.incident_number.data

/-- Insert a row into an already sorted list, before any row it compares
less-or-equal to: the placement a stable sort gives the earlier of two
equal-key rows. -/
def insertRow (r : Row) : List Row → List Row
  | [] => [r]
  | x :: xs => if rowLe r x then r :: x :: xs else x :: insertRow r xs

/-- The multi-column `sort_values` of line 102 as a stable sort (pandas
sorts several columns with `lexsort`, which is stable). -/
def sortRows : List Row → List Row
  | [] => []
  | r :: rs => insertRow r (sortRows rs)

/-- The partition `groupby('incident_number')` hands to `aggregate_group`
for one identifier: the sorted rows carrying that identifier, in sorted
(hence stable) order. -/
def groupOf (pd : String → Option DT) (pool : List RawRecord) (id : String) :
    List Row :=
  (sortRows (parseRows pd pool)).filter fun r => r.raw.incident_number = id

/-- The distinct group keys, in their order of first appearance in the
sorted frame (ascending, since the frame is sorted by identifier). -/
def incidentIds (pd : String → Option DT) (pool : List RawRecord) :
    List String :=
  ((sortRows (parseRows pd pool)).map fun r => r.raw.incident_number).dedup

/-! ## Timeline builder (`build_timeline`, main.py lines 104-145) -/

/-- The fixed truncation budget of main.py line 119. -/
def MAX_CHARS : Nat := 1200

/-- Line 120: `detail_raw[:MAX_CHARS] + ("... [truncated]" if
len(detail_raw) > MAX_CHARS else "")`. -/
def truncateDetail (s : String) : String :=
  String.mk (s.data.take MAX_CHARS) ++
    (if s.length > MAX_CHARS then "... [truncated]" else "")

/-- Line 116: display text is the content field when non-empty, else the
detail field when non-empty, else the fixed literal, cleaned. -/
def rowDetailRaw (r : Row) : String :=
  clean_text (pyOr r.raw.content_en (pyOr r.raw.detail_en "No detail provided"))

/-- The display text of one record: lines 116-120, cleaning then truncation. -/
def rowDetail (r : Row) : String := truncateDetail (rowDetailRaw r)

/-- Line 123: the normalized form of the display text — lowercase, with
spaces, periods and commas removed.  (Python's full-Unicode `str.lower` is
modelled by the ASCII `Char.toLower`; the claims only exercise ASCII.) -/
def normText (s : String) : String :=
  String.mk ((s.data.map Char.toLower).filter fun c =>
    !(c = ' ' || c = '.' || c = ','))

/-- Line 124: the adjacent-deduplication comparison key of one record,
`(formatted timestamp, normalized display text)`. -/
def rowKey (r : Row) : String × String := (fmtTs r.ts, normText (rowDetail r))

/-- Lines 115 and 129: the emitted update line
`"[ts] Status: <status>\n    <detail>"`. -/
def rowLine (r : Row) : String :=
  "[" ++ fmtTs r.ts ++ "] Status: " ++ clean_text (pyOr r.raw.status_en "N/A")
    ++ "\n    " ++ rowDetail r

/-- Worker for `dedupTs`, carrying the instants already seen. -/
def dedupTsGo (seen : List Int) : List Row → List Row
  | [] => []
  | r :: rs =>
    if r.ts.toMicro ∈ seen then dedupTsGo seen rs
    else r :: dedupTsGo (r.ts.toMicro :: seen) rs

/-- Line 108, `group.drop_duplicates(subset=['announcement_date'],
keep='first')`: keep the first row per exact instant. -/
def dedupTs (g : List Row) : List Row := dedupTsGo [] g

/-- The emission loop of lines 110-131, carrying `prev_key` (`none` models
Python's initial `None`): a row is skipped exactly when its key equals the
key of the immediately preceding emitted line; the result pairs each
emitted line with its key. -/
def timelineLoop (prev : Option (String × String)) :
    List Row → List ((String × String) × String)
  | [] => []
  | r :: rs =>
    if some (rowKey r) = prev then timelineLoop prev rs
    else (rowKey r, rowLine r) :: timelineLoop (some (rowKey r)) rs

/-- The key/line pairs `build_timeline` emits for one partition, after the
coarse per-instant deduplication. -/
def timelineEntries (g : List Row) : List ((String × String) × String) :=
  timelineLoop none (dedupTs g)

/-- The `lines` list of `build_timeline`. -/
def timelineLines (g : List Row) : List String :=
  (timelineEntries g).map Prod.snd

/-- `build_timeline` (main.py lines 104-145).  The deduplicated group is
matched so that `iloc[0]` of the header block is total: the `[]` branch of
the match can only arise from an empty partition, for which the `lines`
guard (lines 133-134) already answers, with the same literal. -/
def build_timeline (g : List Row) : String :=
  if g = [] then "No updates available."
  else
    match dedupTs g with
    | [] => "No meaningful updates after deduplication."
    | f :: rest =>
      let lines := (timelineLoop none (f :: rest)).map Prod.snd
      if lines = [] then "No meaningful updates after deduplication."
      else
        "Incident: " ++ f.raw.incident_number ++ "\n" ++
        "Location: " ++ pyOr f.raw.location_en "N/A" ++ "\n" ++
        "Heading: " ++ pyOr f.raw.heading_en "N/A" ++ "\n" ++
        "Timeline of updates (oldest to newest):\n\n" ++
        String.intercalate "\n\n" lines

/-! ## Aggregator (`aggregate_group`, main.py lines 147-168) and batch
pipeline (`process_all_xml_to_csv`, lines 71-194) -/

/-- Round an exact quotient `n / d` (with `d > 0`) to the nearest integer,
halves to even: Python's `round` on the exact value. -/
def roundHalfEven (n d : Nat) : Nat :=
  let q := n / d
  let r := n % d
  if 2 * r < d then q
  else if d < 2 * r then q + 1
  else if q % 2 = 0 then q else q + 1

/-- One output row, in the column order of main.py lines 176-188.  The two
timestamp columns hold the min/max instant of the group in microseconds;
the duration column holds tenths of minutes, the source's
`round(total_seconds / 60, 1)` computed on the exact value (the source
rounds an IEEE double; the values coincide on realistic durations). -/
structure SummaryRow where
  incident_number : String
  llm_timeline : String
  first_announcement : Int
  last_announcement : Int
  duration_min_tenths : Nat
  final_status : String
  initial_heading : String
  main_location : String
  main_direction : String
  near_landmark : String
  first_file : String
deriving DecidableEq, Repr

/-- `aggregate_group` (main.py lines 147-168) for a non-empty partition
`f :: rest`, whose rows are in ascending instant order. -/
def aggregateRows (f : Row) (rest : List Row) : SummaryRow :=
  let g := f :: rest
  let micros := g.map fun r => r.ts.toMicro
  let lo := micros.foldl min f.ts.toMicro
  let hi := micros.foldl max f.ts.toMicro
  let lastRow := (f :: rest).getLast (by simp)
  { incident_number := f.raw.incident_number
    llm_timeline := build_timeline g
    first_announcement := lo
    last_announcement := hi
    duration_min_tenths :=
      if rest = [] then 0 else roundHalfEven ((hi - lo).toNat * 10) 60
    final_status := clean_text lastRow.raw.status_en
    initial_heading := clean_text f.raw.heading_en
    main_location := clean_text f.raw.location_en
    main_direction := clean_text f.raw.direction_en
    near_landmark := clean_text f.raw.near_landmark_en
    first_file := f.raw.file }

/-- The per-group aggregation, total on lists.  The `[]` case models the
source's `if g.empty` branch, which builds a sentinel series (its own field
accesses could not actually run on an empty frame, but `groupby` never
produces an empty group, so the branch is unreachable either way). -/
def aggregate_group (g : List Row) : SummaryRow :=
  match g with
  | [] =>
    { incident_number := "Unknown", llm_timeline := "Empty group - no data"
      first_announcement := 0, last_announcement := 0
      duration_min_tenths := 0, final_status := "", initial_heading := ""
      main_location := "", main_direction := "", near_landmark := ""
      first_file := "" }
  | f :: rest => aggregateRows f rest

/-- The observable outcome of one batch run: either the "No data found."
early return that writes nothing, or the CSV written with the given rows. -/
inductive BatchOutcome
  | noData
  | wrote (rows : List SummaryRow)
deriving DecidableEq, Repr

/-- `process_all_xml_to_csv` (main.py lines 71-194) downstream of the
directory scan: `pool` is `all_rows`, the concatenation of the per-file
`process_xml` results.  When the pool is empty the run prints
"No data found." and returns without writing (lines 80-82); otherwise
dates are parsed, failures dropped, rows sorted and grouped, and one
aggregated row per identifier is written. -/
def process_all_xml_to_csv (pd : String → Option DT)
    (pool : List RawRecord) : BatchOutcome :=
  if pool = [] then .noData
  else
    .wrote ((incidentIds pd pool).map fun id =>
      aggregate_group (groupOf pd pool id))

/-! ## Concrete fixtures used by witnesses and counterexamples -/

/-- A record fixture: one extracted row with the interesting fields filled. -/
def mkRec (id c d ann : String) : RawRecord :=
  { file := "a.xml", incident_number := id, heading_en := "Blocked road"
    detail_en := d, location_en := "Central", direction_en := ""
    announcement_date := ann, status_en := "Open", near_landmark_en := ""
    content_en := c }

/-- A row fixture on 2024-01-01 10:mi:00 plus `us` microseconds. -/
def mkRow (id c : String) (mi us : Nat) : Row :=
  ⟨mkRec id c "" "raw", ⟨2024, 1, 1, 10, mi, 0, us⟩⟩

/-- A `<message>` whose incident-identifier field is whitespace-only, as in
a file `report42.xml` of spec Scenario B. -/
def blankIdMessage : Message :=
  ⟨[("INCIDENT_NUMBER", "   "), ("ANNOUNCEMENT_DATE", "2024-01-01 10:00:00"),
    ("CONTENT_EN", "Road closed")]⟩

/-- A concrete instance of the external date parser: it recognises exactly
one date string.  The pipeline theorems hold for every parser; witnesses
instantiate them with this one. -/
def oneDateParse (s : String) : Option DT :=
  if s = "2024-01-01 10:00:00" then some ⟨2024, 1, 1, 10, 0, 0, 0⟩ else none

/-- A pooled record whose date the parser above accepts. -/
def goodRec : RawRecord := mkRec "INC1" "Road closed" "" "2024-01-01 10:00:00"

/-- A pooled record with spec Scenario C's unparsable date. -/
def badRec : RawRecord := mkRec "INC2" "Lane blocked" "" "not-a-date"

/-- A concrete instance of the external strict codecs for the decoder
theorem: every candidate rejects every input. -/
def noneDec : Enc → List Nat → Option String := fun _ _ => none

/-- A concrete instance of the external lossy big5 decode: one placeholder
character per input byte (as `errors='replace'` produces at least one
character per undecodable unit). -/
def questionRep (b : List Nat) : String := String.mk (b.map fun _ => '?')

/-- Scenario A fixture: the update at `t1 = 10:00`. -/
def t1Row : Row := mkRow "INC1" "Road closed" 0 0

/-- Scenario A fixture: the update at `t2 = 10:05`. -/
def t2Row : Row := mkRow "INC1" "Lane reopened" 5 0

/-- Scenario A fixture: the update at `t3 = 10:10`, with the same content
as the one at `t2`. -/
def t3Row : Row := mkRow "INC1" "Lane reopened" 10 0

/-- Non-adjacent-duplicate fixture: three distinct instants inside one
formatted second (microseconds 0, 1, 2), contents alpha/beta/alpha. -/
def naRow1 : Row := mkRow "INC1" "alpha" 0 0

/-- Second row of the non-adjacent-duplicate fixture. -/
def naRow2 : Row := mkRow "INC1" "beta" 0 1

/-- Third row of the non-adjacent-duplicate fixture: equal key to the
first, separated from it by the second. -/
def naRow3 : Row := mkRow "INC1" "alpha" 0 2

/-- A display text one character over the truncation budget. -/
def longText : String := String.mk (List.replicate 1201 'x')

/-! ## Helper lemmas: the sort order -/

theorem charListLt_irrefl : ∀ as : List Char, charListLt as as = false := by
  intro as
  induction as with
  | nil => rfl
  | cons a as ih => simp [charListLt, ih]

theorem charListLt_total_of_ne :
    ∀ {as bs : List Char}, as ≠ bs →
      charListLt as bs = true ∨ charListLt bs as = true := by
  intro as
  induction as with
  | nil =>
    intro bs h
    cases bs with
    | nil => exact absurd rfl h
    | cons b bs => left; rfl
  | cons a as ih =>
    intro bs h
    cases bs with
    | nil => right; rfl
    | cons b bs =>
      by_cases hab : a = b
      · subst hab
        have hne : as ≠ bs := fun he => h (by rw [he])
        rcases ih hne with h1 | h1
        · left; simpa [charListLt] using h1
        · right; simpa [charListLt] using h1
      · rcases lt_trichotomy a b with hlt | heq | hgt
        · left; simp [charListLt, hab, hlt]
        · exact absurd heq hab
        · right; simp [charListLt, Ne.symm hab, hgt]

theorem charListLt_trans :
    ∀ {as bs cs : List Char}, charListLt as bs = true →
      charListLt bs cs = true → charListLt as cs = true := by
  intro as
  induction as with
  | nil =>
    intro bs cs h1 h2
    cases bs with
    | nil => exact h2
    | cons b bs =>
      cases cs with
      | nil => simp [charListLt] at h2
      | cons c cs => rfl
  | cons a as ih =>
    intro bs cs h1 h2
    cases bs with
    | nil => simp [charListLt] at h1
    | cons b bs =>
      cases cs with
      | nil => simp [charListLt] at h2
      | cons c cs =>
        by_cases hab : a = b
        · subst hab
          by_cases hbc : a = c
          · subst hbc
            simp only [charListLt, if_pos rfl] at h1 h2 ⊢
            exact ih h1 h2
          · simpa [charListLt, hbc] using (by simpa [charListLt, hbc] using h2)
        · have h1' : a < b := by simpa [charListLt, hab] using h1
          by_cases hbc : b = c
          · subst hbc
            simpa [charListLt, hab] using h1
          · have h2' : b < c := by simpa [charListLt, hbc] using h2
            have hac : a < c := h1'.trans h2'
            simp [charListLt, ne_of_lt hac, hac]

theorem string_ne_of_data_ne {a b : String} (h : a ≠ b) : a.data ≠ b.data := by
  intro he
  apply h
  cases a
  cases b
  exact congrArg String.mk he

theorem rowLe_total (a b : Row) : rowLe a b = true ∨ rowLe b a = true := by
  unfold rowLe
  by_cases h : a.raw.incident_number = b.raw.incident_number
  · rw [if_pos h, if_pos h.symm]
    rcases le_total a.ts.toMicro b.ts.toMicro with h2 | h2
    · left; exact decide_eq_true h2
    · right; exact decide_eq_true h2
  · rw [if_neg h, if_neg (Ne.symm h)]
    exact charListLt_total_of_ne (string_ne_of_data_ne h)

theorem rowLe_trans {a b c : Row} (hab : rowLe a b = true)
    (hbc : rowLe b c = true) : rowLe a c = true := by
  unfold rowLe at hab hbc ⊢
  by_cases h1 : a.raw.incident_number = b.raw.incident_number
  · by_cases h2 : b.raw.incident_number = c.raw.incident_number
    · rw [if_pos h1] at hab
      rw [if_pos h2] at hbc
      rw [if_pos (h1.trans h2)]
      exact decide_eq_true ((of_decide_eq_true hab).trans (of_decide_eq_true hbc))
    · rw [if_neg h2] at hbc
      have h3 : a.raw.incident_number ≠ c.raw.incident_number := fun he =>
        h2 (h1.symm.trans he)
      rw [if_neg h3, show a.raw.incident_number.data =
        b.raw.incident_number.data from congrArg String.data h1]
      exact hbc
  · by_cases h2 : b.raw.incident_number = c.raw.incident_number
    · rw [if_neg h1] at hab
      have h3 : a.raw.incident_number ≠ c.raw.incident_number := fun he =>
        h1 (he.trans h2.symm)
      rw [if_neg h3, show c.raw.incident_number.data =
        b.raw.incident_number.data from (congrArg String.data h2).symm]
      exact hab
    · rw [if_neg h1] at hab
      rw [if_neg h2] at hbc
      have hlt := charListLt_trans hab hbc
      by_cases h3 : a.raw.incident_number = c.raw.incident_number
      · exfalso
        have hba : charListLt b.raw.incident_number.data
            a.raw.incident_number.data = true := by
          rw [show a.raw.incident_number.data = c.raw.incident_number.data from
            congrArg String.data h3]
          exact hbc
        have hcontra := charListLt_trans hab hba
        rw [charListLt_irrefl] at hcontra
        exact Bool.noConfusion hcontra
      · rw [if_neg h3]
        exact hlt

/-! ## Helper lemmas: insertion sort -/

theorem mem_insertRow {x r : Row} :
    ∀ {l : List Row}, x ∈ insertRow r l ↔ x = r ∨ x ∈ l := by
  intro l
  induction l with
  | nil => simp [insertRow]
  | cons y ys ih =>
    simp only [insertRow]
    split
    · simp [List.mem_cons]
    · simp only [List.mem_cons, ih]
      tauto

theorem sorted_insertRow (r : Row) :
    ∀ {l : List Row}, List.Pairwise (fun a b => rowLe a b = true) l →
      List.Pairwise (fun a b => rowLe a b = true) (insertRow r l) := by
  intro l
  induction l with
  | nil => intro _; simp [insertRow]
  | cons x xs ih =>
    intro hl
    rw [List.pairwise_cons] at hl
    simp only [insertRow]
    split
    · rename_i hle
      rw [List.pairwise_cons]
      refine ⟨?_, List.pairwise_cons.mpr hl⟩
      intro y hy
      rcases List.mem_cons.mp hy with hy | hy
      · rw [hy]; exact hle
      · exact rowLe_trans hle (hl.1 y hy)
    · rename_i hle
      rw [List.pairwise_cons]
      refine ⟨?_, ih hl.2⟩
      intro y hy
      rcases mem_insertRow.mp hy with hy | hy
      · rw [hy]
        rcases rowLe_total r x with h | h
        · exact absurd h hle
        · exact h
      · exact hl.1 y hy

theorem sorted_sortRows :
    ∀ l : List Row, List.Pairwise (fun a b => rowLe a b = true) (sortRows l) := by
  intro l
  induction l with
  | nil => simp [sortRows]
  | cons r rs ih => exact sorted_insertRow r ih

theorem mem_sortRows {x : Row} :
    ∀ {l : List Row}, x ∈ sortRows l ↔ x ∈ l := by
  intro l
  induction l with
  | nil => simp [sortRows]
  | cons r rs ih => simp [sortRows, mem_insertRow, ih]

theorem filter_insertRow (p : Row → Bool)
    (hp : ∀ a b : Row, p a = true → p b = true → rowLe a b = true) (r : Row) :
    ∀ l : List Row, (insertRow r l).filter p =
      if p r then r :: l.filter p else l.filter p := by
  intro l
  induction l with
  | nil =>
    simp only [insertRow, List.filter]
    cases hpr : p r <;> simp [hpr]
  | cons x xs ih =>
    simp only [insertRow]
    split
    · rename_i hle
      cases hpr : p r <;> simp [List.filter, hpr]
    · rename_i hle
      cases hpr : p r
      · cases hpx : p x <;>
          simp [List.filter, hpx, ih, hpr]
      · cases hpx : p x
        · simp [List.filter, hpx, ih, hpr]
        · exact absurd (hp r x hpr hpx) hle

theorem filter_sortRows (p : Row → Bool)
    (hp : ∀ a b : Row, p a = true → p b = true → rowLe a b = true) :
    ∀ l : List Row, (sortRows l).filter p = l.filter p := by
  intro l
  induction l with
  | nil => simp [sortRows]
  | cons r rs ih =>
    simp only [sortRows, filter_insertRow p hp r (sortRows rs), ih]
    cases hpr : p r <;> simp [List.filter, hpr]

/-! ## Helper lemmas: parsing and grouping -/

theorem mem_parseRows {pd : String → Option DT} {pool : List RawRecord}
    {x : Row} : x ∈ parseRows pd pool ↔
      x.raw ∈ pool ∧ pd x.raw.announcement_date = some x.ts := by
  unfold parseRows
  rw [List.mem_filterMap]
  constructor
  · rintro ⟨a, ha, hfa⟩
    cases hpa : pd a.announcement_date with
    | none => rw [hpa] at hfa; simp at hfa
    | some t =>
      rw [hpa] at hfa
      cases hfa
      exact ⟨ha, hpa⟩
  · rintro ⟨ha, hpa⟩
    exact ⟨x.raw, ha, by rw [hpa]; cases x; rfl⟩

theorem mem_groupOf {pd : String → Option DT} {pool : List RawRecord}
    {id : String} {x : Row} : x ∈ groupOf pd pool id ↔
      x.raw ∈ pool ∧ pd x.raw.announcement_date = some x.ts ∧
      x.raw.incident_number = id := by
  unfold groupOf
  rw [List.mem_filter, mem_sortRows, mem_parseRows]
  simp [and_assoc]

/-! ## Helper lemmas: timeline builder -/

theorem timelineLoop_chain :
    ∀ (l : List Row) (prev : Option (String × String)),
      List.Chain' (fun a b : (String × String) × String => a.1 ≠ b.1)
        (timelineLoop prev l) ∧
      ∀ x, (timelineLoop prev l).head? = some x → some x.1 ≠ prev := by
  intro l
  induction l with
  | nil => intro prev; exact ⟨List.chain'_nil, fun x hx => by simp [timelineLoop] at hx⟩
  | cons r rs ih =>
    intro prev
    simp only [timelineLoop]
    split
    · exact ih prev
    · rename_i hne
      obtain ⟨ihchain, ihhead⟩ := ih (some (rowKey r))
      refine ⟨List.chain'_cons'.mpr ⟨?_, ihchain⟩, ?_⟩
      · intro y hy
        have hy2 : (timelineLoop (some (rowKey r)) rs).head? = some y :=
          Option.mem_def.mp hy
        intro he
        exact ihhead y hy2 (congrArg some he.symm)
      · intro x hx
        have hx2 : (rowKey r, rowLine r) = x := by simpa using hx
        rw [← hx2]
        exact hne

theorem dedupTs_cons (f : Row) (l : List Row) :
    dedupTs (f :: l) = f :: dedupTsGo [f.ts.toMicro] l := by
  simp [dedupTs, dedupTsGo]

theorem timelineLines_cons (f : Row) (l : List Row) :
    timelineLines (f :: l) = rowLine f ::
      (timelineLoop (some (rowKey f)) (dedupTsGo [f.ts.toMicro] l)).map
        Prod.snd := by
  simp [timelineLines, timelineEntries, dedupTs_cons, timelineLoop]

theorem build_timeline_cons (f : Row) (l : List Row) :
    build_timeline (f :: l) =
      "Incident: " ++ f.raw.incident_number ++ "\n" ++
      "Location: " ++ pyOr f.raw.location_en "N/A" ++ "\n" ++
      "Heading: " ++ pyOr f.raw.heading_en "N/A" ++ "\n" ++
      "Timeline of updates (oldest to newest):\n\n" ++
      String.intercalate "\n\n" (timelineLines (f :: l)) := by
  unfold build_timeline
  rw [if_neg (List.cons_ne_nil f l), dedupTs_cons]
  have hloop : timelineLoop none (f :: dedupTsGo [f.ts.toMicro] l)
      = (rowKey f, rowLine f) ::
        timelineLoop (some (rowKey f)) (dedupTsGo [f.ts.toMicro] l) := by
    simp [timelineLoop]
  simp only [hloop, List.map_cons]
  rw [if_neg (List.cons_ne_nil _ _), timelineLines_cons]

/-! ## Helper lemmas: text cleaning -/

theorem dropWhile_of_all {p : Char → Bool} {l : List Char}
    (h : ∀ c ∈ l, p c = true) : l.dropWhile p = [] :=
  List.dropWhile_eq_nil_iff.mpr h

theorem clean_text_of_all_space {s : String}
    (h : ∀ c ∈ s.data, pyIsSpace c = true) : clean_text s = "" := by
  unfold clean_text
  split
  · rfl
  · have hfix : fixChars s.data = s.data := by
      unfold fixChars
      rw [show s.data.map (fun c => if c = Char.ofNat 0xfffd then '?' else c)
          = s.data.map id from List.map_congr_left ?_, List.map_id]
      intro c hc
      have hne : c ≠ Char.ofNat 0xfffd := by
        intro he
        have := h c hc
        rw [he] at this
        exact absurd this (by decide)
      simp [hne]
    rw [hfix]
    have hall : ∀ c ∈ keepPrintable s.data, pyIsSpace c = true := by
      intro c hc
      exact h c (List.mem_of_mem_filter hc)
    unfold pyStrip
    rw [dropWhile_of_all hall]
    rfl

/-! ## Claim theorems -/

/-- C1, counterexample: extraction of a message whose incident-identifier
field is whitespace-only in a file named `report42.xml` stores the empty
string as identifier, not the claimed `MISSING_ID_report42.xml` — and so a
RawRecord with an empty incident identifier does exist. -/
theorem c1_missing_id_counterexample :
    (extractRecord "report42.xml" blankIdMessage).incident_number = "" ∧
    (extractRecord "report42.xml" blankIdMessage).incident_number ≠
      "MISSING_ID_report42.xml" := by
  decide

/-- C1, amended: for every extracted message whose incident-identifier
field is absent, empty, or whitespace-only, the RawRecord produced by
record extraction carries the empty string as its incident identifier —
no `MISSING_ID_<file>` placeholder is synthesized. -/
theorem c1_missing_id_amended (file : String) (m : Message)
    (h : ∀ c ∈ (findtext m "INCIDENT_NUMBER" "").data, pyIsSpace c = true) :
    (extractRecord file m).incident_number = "" := by
  show (if findtext m "INCIDENT_NUMBER" "" = "" then ""
    else clean_text (findtext m "INCIDENT_NUMBER" "")) = ""
  by_cases he : findtext m "INCIDENT_NUMBER" "" = ""
  · rw [if_pos he]
  · rw [if_neg he]
    exact clean_text_of_all_space h

/-- C1, amended, witness at Scenario B's concrete input. -/
theorem c1_missing_id_amended_witness :
    (extractRecord "report42.xml" blankIdMessage).incident_number = "" :=
  c1_missing_id_amended "report42.xml" blankIdMessage (by decide)

/-- C2, counterexample: a partition of three records of one incident with
strictly increasing instants 10:00, 10:05, 10:10 where the records at t2
and t3 have identical normalized display content yields a timeline with 3
update lines, not the claimed 2. -/
theorem c2_two_lines_counterexample :
    t1Row.ts.toMicro < t2Row.ts.toMicro ∧
    t2Row.ts.toMicro < t3Row.ts.toMicro ∧
    normText (rowDetail t2Row) = normText (rowDetail t3Row) ∧
    (timelineLines [t1Row, t2Row, t3Row]).length = 3 ∧
    (timelineLines [t1Row, t2Row, t3Row]).length ≠ 2 := by
  decide

/-- C2, amended: for a partition of three records of one incident with
strictly increasing instants and pairwise different formatted timestamps,
where the records at t2 and t3 have identical normalized display content,
the built timeline contains exactly 3 update lines: the deduplication key
pairs the formatted timestamp with the normalized text, so identical
content at different timestamps is never merged. -/
theorem c2_three_lines_amended (r1 r2 r3 : Row)
    (h12 : r1.ts.toMicro < r2.ts.toMicro)
    (h23 : r2.ts.toMicro < r3.ts.toMicro)
    (hf12 : fmtTs r1.ts ≠ fmtTs r2.ts) (hf23 : fmtTs r2.ts ≠ fmtTs r3.ts)
    (_hnorm : normText (rowDetail r2) = normText (rowDetail r3)) :
    (timelineLines [r1, r2, r3]).length = 3 := by
  have hm21 : ¬ r2.ts.toMicro = r1.ts.toMicro := ne_of_gt h12
  have hm32 : ¬ r3.ts.toMicro = r2.ts.toMicro := ne_of_gt h23
  have hm31 : ¬ r3.ts.toMicro = r1.ts.toMicro := ne_of_gt (h12.trans h23)
  have hd : dedupTs [r1, r2, r3] = [r1, r2, r3] := by
    simp [dedupTs, dedupTsGo, hm21, hm32, hm31]
  have hk12 : ¬ rowKey r2 = rowKey r1 := by
    intro he
    exact hf12 (congrArg Prod.fst he).symm
  have hk23 : ¬ rowKey r3 = rowKey r2 := by
    intro he
    exact hf23 (congrArg Prod.fst he).symm
  rw [show timelineLines [r1, r2, r3]
      = (timelineLoop none (dedupTs [r1, r2, r3])).map Prod.snd from rfl, hd]
  simp [timelineLoop, hk12, hk23]

/-- C2, amended, witness at the Scenario A fixture. -/
theorem c2_three_lines_amended_witness :
    (timelineLines [t1Row, t2Row, t3Row]).length = 3 :=
  c2_three_lines_amended t1Row t2Row t3Row (by decide) (by decide)
    (by decide) (by decide) (by decide)

/-- C3: on every partition the emitted lines never carry two consecutive
equal comparison keys (formatted timestamp, normalized text), while on a
concrete partition two non-adjacent lines with equal keys are both kept:
the deduplication is adjacent-only, not global. -/
theorem c3_adjacent_dedup_only :
    (∀ g : List Row, List.Chain'
        (fun a b : (String × String) × String => a.1 ≠ b.1)
        (timelineEntries g)) ∧
    ((timelineEntries [naRow1, naRow2, naRow3]).map Prod.fst).length = 3 ∧
    ((timelineEntries [naRow1, naRow2, naRow3]).map Prod.fst)[0]? =
      ((timelineEntries [naRow1, naRow2, naRow3]).map Prod.fst)[2]? ∧
    ((timelineEntries [naRow1, naRow2, naRow3]).map Prod.fst)[0]? ≠
      ((timelineEntries [naRow1, naRow2, naRow3]).map Prod.fst)[1]? := by
  refine ⟨fun g => (timelineLoop_chain (dedupTs g) none).1, ?_, ?_, ?_⟩ <;>
    decide

/-- C4: within every partition, the records sharing one exact parsed
instant appear exactly in their original pooled (file-then-message) order:
the sort is stable, so grouping never reorders equal-timestamp records. -/
theorem c4_stable_equal_ts_order (pd : String → Option DT)
    (pool : List RawRecord) (id : String) (t : Int) :
    (groupOf pd pool id).filter (fun r => r.ts.toMicro = t) =
      (parseRows pd pool).filter
        (fun r => r.raw.incident_number = id ∧ r.ts.toMicro = t) := by
  unfold groupOf
  rw [List.filter_filter]
  rw [filter_sortRows _ ?hp]
  case hp =>
    intro a b ha hb
    simp only [Bool.and_eq_true, decide_eq_true_eq] at ha hb
    unfold rowLe
    rw [if_pos (ha.2.trans hb.2.symm)]
    exact decide_eq_true (le_of_eq (ha.1.trans hb.1.symm))
  · apply List.filter_congr
    intro x hx
    by_cases h1 : x.raw.incident_number = id <;>
      by_cases h2 : x.ts.toMicro = t <;> simp [h1, h2]

/-- C5, counterexample: a pool holding one extracted record whose date is
unparsable leaves zero surviving rows, yet the batch outcome is not the
suppressed "No data found." early return — the guard only checks the pool
before date parsing, so the run still proceeds to write output (an empty
row set), contrary to the claim that zero surviving rows suppress the
output file. -/
theorem c5_suppression_counterexample :
    parseRows oneDateParse [badRec] = [] ∧
    process_all_xml_to_csv oneDateParse [badRec] = BatchOutcome.wrote [] ∧
    process_all_xml_to_csv oneDateParse [badRec] ≠ BatchOutcome.noData := by
  decide

/-- C5, amended: the batch logs "No data found." and suppresses the output
file exactly when zero records were extracted across the batch (the pool
is empty, e.g. no `.xml` files); records dropped later for unparsable
dates do not trigger suppression. -/
theorem c5_suppression_iff_empty_pool (pd : String → Option DT)
    (pool : List RawRecord) :
    process_all_xml_to_csv pd pool = BatchOutcome.noData ↔ pool = [] := by
  unfold process_all_xml_to_csv
  by_cases h : pool = [] <;> simp [h]

/-- Characterisation of the decoder loop's failure: it returns `none`
exactly when no candidate in the list decodes the bytes. -/
theorem decodeLoop_eq_none_iff (dec : Enc → List Nat → Option String)
    (b : List Nat) : ∀ es : List Enc,
      decodeLoop dec b es = none ↔
        es.find? (fun e => (dec e b).isSome) = none := by
  intro es
  induction es with
  | nil => simp [decodeLoop]
  | cons e es ih =>
    simp only [decodeLoop, List.find?_cons]
    cases hde : dec e b with
    | some t => simp [hde]
    | none => simp [hde, ih]

/-- Characterisation of the decoder loop's success: when some candidate in
the list decodes the bytes, the loop returns the text of the first such
candidate, paired with that candidate. -/
theorem decodeLoop_first (dec : Enc → List Nat → Option String)
    (b : List Nat) : ∀ (es : List Enc) (e : Enc),
      es.find? (fun e => (dec e b).isSome) = some e →
      ∃ t, dec e b = some t ∧ decodeLoop dec b es = some (t, e) := by
  intro es
  induction es with
  | nil => intro e h; simp at h
  | cons e0 es ih =>
    intro e h
    rw [List.find?_cons] at h
    cases hde : dec e0 b with
    | some t =>
      rw [hde] at h
      simp only [Option.isSome_some] at h
      cases h
      exact ⟨t, hde, by simp [decodeLoop, hde]⟩
    | none =>
      rw [hde] at h
      simp only [Option.isSome_none] at h
      obtain ⟨t, ht, hl⟩ := ih e h
      exact ⟨t, ht, by simp [decodeLoop, hde, hl]⟩

/-- C6: for every byte input, when some candidate decodes the bytes the
Decoder returns the text of the first such candidate in the fixed order of
`encodings`; when every candidate fails it returns the lossy replace
decode of the first candidate (big5), and — since the replace decode
yields at least one character per input unit — a non-empty input then
never yields empty output. -/
theorem c6_decoder_first_success (dec : Enc → List Nat → Option String)
    (decRep : List Nat → String) (b : List Nat) :
    (∀ e, encodings.find? (fun e => (dec e b).isSome) = some e →
        ∃ t, dec e b = some t ∧ decodeFile dec decRep b = (t, some e)) ∧
    (encodings.find? (fun e => (dec e b).isSome) = none →
        decodeFile dec decRep b = (decRep b, none)) ∧
    ((∀ bs : List Nat, bs ≠ [] → decRep bs ≠ "") →
      encodings.find? (fun e => (dec e b).isSome) = none → b ≠ [] →
      (decodeFile dec decRep b).1 ≠ "") := by
  have hnone : encodings.find? (fun e => (dec e b).isSome) = none →
      decodeFile dec decRep b = (decRep b, none) := by
    intro he
    unfold decodeFile
    rw [(decodeLoop_eq_none_iff dec b encodings).mpr he]
  refine ⟨?_, hnone, ?_⟩
  · intro e he
    obtain ⟨t, ht, hl⟩ := decodeLoop_first dec b encodings e he
    refine ⟨t, ht, ?_⟩
    unfold decodeFile
    rw [hl]
  · intro hrep he hb
    rw [hnone he]
    exact hrep b hb

/-- C6, witness: a byte that every candidate rejects takes the fallback
path, and the output is non-empty. -/
theorem c6_decoder_first_success_witness :
    (decodeFile noneDec questionRep [255]).1 ≠ "" := by
  have h := c6_decoder_first_success noneDec questionRep [255]
  refine h.2.2 ?_ rfl (by decide)
  intro bs hbs hcon
  apply hbs
  have h2 : bs.map (fun _ => '?') = [] := congrArg String.data hcon
  simpa using h2

/-- C7: the invalid-date diagnostic counts exactly the pooled records whose
announcement-date string the tolerant parser rejects; a record with an
unparsable date appears in no partition, and a record whose date parses
survives into the partition of its incident identifier. -/
theorem c7_unparsable_dates_dropped (pd : String → Option DT)
    (pool : List RawRecord) (r : RawRecord) (hr : r ∈ pool) :
    invalidCount pd pool =
      (pool.filter fun x => (pd x.announcement_date).isNone).length ∧
    (pd r.announcement_date = none →
      ∀ id, ∀ x ∈ groupOf pd pool id, x.raw ≠ r) ∧
    (∀ t, pd r.announcement_date = some t →
      Row.mk r t ∈ groupOf pd pool r.incident_number) := by
  refine ⟨?_, ?_, ?_⟩
  · unfold invalidCount
    rw [List.countP_map, List.countP_eq_length_filter]
    rfl
  · intro hnone id x hx he
    have h2 := mem_groupOf.mp hx
    rw [he] at h2
    rw [h2.2.1] at hnone
    exact Option.noConfusion hnone
  · intro t ht
    exact mem_groupOf.mpr ⟨hr, ht, rfl⟩

/-- C7, witness at Scenario C's fixture: the record with the parsable date
is in its partition (and the theorem's other conjuncts applied to the
unparsable `badRec` show it lands in no partition). -/
theorem c7_unparsable_dates_dropped_witness :
    Row.mk goodRec ⟨2024, 1, 1, 10, 0, 0, 0⟩ ∈
      groupOf oneDateParse [goodRec, badRec] goodRec.incident_number := by
  have h := c7_unparsable_dates_dropped oneDateParse [goodRec, badRec]
    goodRec (by decide)
  exact h.2.2 ⟨2024, 1, 1, 10, 0, 0, 0⟩ (by decide)

/-- C8: display text longer than the 1200-character budget is emitted as
exactly its first 1200 characters with the truncation marker appended;
text at or under the budget is emitted unchanged. -/
theorem c8_truncation_budget (s : String) :
    (s.length > MAX_CHARS →
      truncateDetail s =
        String.mk (s.data.take MAX_CHARS) ++ "... [truncated]") ∧
    (s.length ≤ MAX_CHARS → truncateDetail s = s) := by
  constructor
  · intro h
    unfold truncateDetail
    rw [if_pos h]
  · intro h
    unfold truncateDetail
    rw [if_neg (not_lt.mpr h), List.take_of_length_le h]
    cases s
    simp

/-- C8, witness: a 3-character text is unchanged and a 1201-character text
is cut at 1200 and marked. -/
theorem c8_truncation_budget_witness :
    truncateDetail "abc" = "abc" ∧
    truncateDetail longText =
      String.mk (longText.data.take MAX_CHARS) ++ "... [truncated]" := by
  constructor
  · exact (c8_truncation_budget "abc").2 (by decide)
  · refine (c8_truncation_budget longText).1 ?_
    have h : longText.length = 1201 := by
      rw [show longText.length = (List.replicate 1201 'x').length from rfl,
        List.length_replicate]
    rw [h]
    decide

/-- C9: after grouping, within every partition the parsed instants are
non-decreasing from first to last. -/
theorem c9_nondecreasing_timestamps (pd : String → Option DT)
    (pool : List RawRecord) (id : String) :
    List.Pairwise (fun a b : Row => a.ts.toMicro ≤ b.ts.toMicro)
      (groupOf pd pool id) := by
  unfold groupOf
  have hs := (sorted_sortRows (parseRows pd pool)).filter
    (fun r => decide (r.raw.incident_number = id))
  refine List.Pairwise.imp_of_mem ?_ hs
  intro a b ha hb hr
  have hai : a.raw.incident_number = id := by
    have := List.of_mem_filter ha
    simpa using this
  have hbi : b.raw.incident_number = id := by
    have := List.of_mem_filter hb
    simpa using this
  unfold rowLe at hr
  rw [if_pos (hai.trans hbi.symm)] at hr
  exact of_decide_eq_true hr

/-- C10: the Timeline Builder returns "No updates available." exactly on
the empty partition; on a non-empty partition it emits at least one update
line — the first record always survives both deduplication passes — so the
literal "No meaningful updates after deduplication." is unreachable. -/
theorem c10_no_meaningful_unreachable (g : List Row) :
    (g = [] → build_timeline g = "No updates available.") ∧
    (g ≠ [] →
      timelineLines g ≠ [] ∧
      build_timeline g ≠ "No meaningful updates after deduplication." ∧
      build_timeline g ≠ "No updates available.") := by
  constructor
  · intro h
    subst h
    rfl
  · intro h
    obtain ⟨f, l, rfl⟩ : ∃ f l, g = f :: l := by
      cases g with
      | nil => exact absurd rfl h
      | cons f l => exact ⟨f, l, rfl⟩
    have hhead : (build_timeline (f :: l)).data.head? = some 'I' := by
      rw [build_timeline_cons]
      rfl
    refine ⟨?_, ?_, ?_⟩
    · rw [timelineLines_cons]
      exact List.cons_ne_nil _ _
    · intro he
      rw [he] at hhead
      exact absurd hhead (by decide)
    · intro he
      rw [he] at hhead
      exact absurd hhead (by decide)

/-- C10, witness: a one-row partition has a line and does not return the
"No meaningful updates" literal. -/
theorem c10_no_meaningful_unreachable_witness :
    timelineLines [t1Row] ≠ [] ∧
    build_timeline [t1Row] ≠ "No meaningful updates after deduplication." := by
  have h := (c10_no_meaningful_unreachable [t1Row]).2 (by simp)
  exact ⟨h.1, h.2.1⟩

end IncidentPipeline
